import Mathlib

/-!
Shallow embedding of `autoresume.py` (the content-alignment pipeline) and
verification of the spec claims about it.  Text is modelled as `List Char`;
Python's `json.loads` is modelled by an executable JSON parser returning
`Except`; fallible Python code is modelled in `Except PyExn`.
-/

/-- Whitespace characters removed by Python's `str.strip()` (ASCII subset). -/
def isPySpace (c : Char) : Bool :=
  c = ' ' || c = '\t' || c = '\n' || c = '\r' || c = '\x0b' || c = '\x0c'

/-- Models Python `str.strip()`: drop leading and trailing whitespace. -/
def pyStrip (s : List Char) : List Char :=
  ((s.dropWhile isPySpace).reverse.dropWhile isPySpace).reverse

/-- Boolean test that `pat` is a prefix of `s` (used to locate substrings). -/
def leadsWith : List Char → List Char → Bool
  | [], _ => true
  | _ :: _, [] => false
  | p :: ps, c :: cs => (p == c) && leadsWith ps cs

/-- Index of the first occurrence of the substring `pat` in `s`
(`re.search` finds the leftmost match). -/
def findSub (pat : List Char) : List Char → Option Nat
  | [] => if leadsWith pat [] then some 0 else none
  | c :: rest =>
    if leadsWith pat (c :: rest) then some 0
    else (findSub pat rest).map (· + 1)

/-- Index of the last occurrence of the substring `pat` in `s`
(used for greedy matching, which extends to the last possible end). -/
def findSubLast (pat : List Char) : List Char → Option Nat
  | [] => if leadsWith pat [] then some 0 else none
  | c :: rest =>
    match findSubLast pat rest with
    | some k => some (k + 1)
    | none => if leadsWith pat (c :: rest) then some 0 else none

/-- Declarative statement that `pat` occurs in `s` at index `i`. -/
def occursAt (pat s : List Char) (i : Nat) : Prop :=
  pat <+: s.drop i

/-- Boolean substring containment. -/
def containsSub (pat s : List Char) : Bool :=
  (findSub pat s).isSome

/-- Index of the first occurrence of character `c` in `s`. -/
def charIdxFirst (ch : Char) : List Char → Option Nat
  | [] => none
  | x :: rest => if x = ch then some 0 else (charIdxFirst ch rest).map (· + 1)

/-- Index of the last occurrence of character `c` in `s`. -/
def charIdxLast (ch : Char) : List Char → Option Nat
  | [] => none
  | x :: rest =>
    match charIdxLast ch rest with
    | some k => some (k + 1)
    | none => if x = ch then some 0 else none

/-- Fuelled worker for `pyReplace`; scans left to right, replacing
non-overlapping occurrences of `pat` by `rep` exactly as Python
`str.replace` does. -/
def replFuel (pat rep : List Char) : Nat → List Char → List Char
  | 0, s => s
  | _ + 1, [] => []
  | fuel + 1, c :: rest =>
    if leadsWith pat (c :: rest) then
      rep ++ replFuel pat rep fuel ((c :: rest).drop pat.length)
    else
      c :: replFuel pat rep fuel rest

/-- Models Python `str.replace(pat, rep)` for nonempty `pat`. -/
def pyReplace (pat rep s : List Char) : List Char :=
  replFuel pat rep s.length s

/-- JSON values as decoded by Python `json.loads`.  Integral numbers are
`num`; numbers with a fractional part or exponent (Python floats) keep
their components in `flt`; Python's nonstandard `NaN` / `Infinity`
literals are `nan` / `inf`.  Object fields keep dict insertion order with
last-wins duplicate keys. -/
inductive Json where
  | null : Json
  | bool (b : Bool) : Json
  | num (n : Int) : Json
  | flt (neg : Bool) (ip : List Char) (fp : Option (List Char))
      (ep : Option (Bool × List Char)) : Json
  | nan : Json
  | inf (neg : Bool) : Json
  | str (s : List Char) : Json
  | arr (elems : List Json) : Json
  | obj (fields : List (List Char × Json)) : Json

/-- Shape test used to model Python `isinstance(x, list)`. -/
def Json.isArr : Json → Bool
  | .arr _ => true
  | _ => false

/-- Python truthiness (`bool(x)`) of a decoded JSON value. -/
def pyFalsy : Json → Bool
  | .null => true
  | .bool b => !b
  | .num n => n == 0
  | .flt _ ip fp _ =>
    ip.all (fun c => c = '0') && (fp.getD []).all (fun c => c = '0')
  | .nan => false
  | .inf _ => false
  | .str s => s.isEmpty
  | .arr l => l.isEmpty
  | .obj o => o.isEmpty

/-- JSON whitespace accepted between tokens by `json.loads`. -/
def isJsonWs (c : Char) : Bool :=
  c = ' ' || c = '\t' || c = '\n' || c = '\r'

def skipJsonWs (s : List Char) : List Char :=
  s.dropWhile isJsonWs

def hexVal (c : Char) : Option Nat :=
  if '0' ≤ c ∧ c ≤ '9' then some (c.toNat - 48)
  else if 'a' ≤ c ∧ c ≤ 'f' then some (c.toNat - 87)
  else if 'A' ≤ c ∧ c ≤ 'F' then some (c.toNat - 55)
  else none

/-- Single-character JSON string escapes. -/
def escMap (c : Char) : Option Char :=
  if c = '"' then some '"'
  else if c = '\\' then some '\\'
  else if c = '/' then some '/'
  else if c = 'b' then some '\x08'
  else if c = 'f' then some '\x0c'
  else if c = 'n' then some '\n'
  else if c = 'r' then some '\r'
  else if c = 't' then some '\t'
  else none

/-- Parses the body of a JSON string after the opening quote; rejects raw
control characters and bad escapes as `json.loads` does in strict mode.
(`\uXXXX` escapes are mapped single-code-unit; surrogate pairs are not
combined.) -/
def parseStringBody : Nat → List Char → Option (List Char × List Char)
  | 0, _ => none
  | _ + 1, [] => none
  | fuel + 1, c :: rest =>
    if c = '"' then some ([], rest)
    else if c = '\\' then
      match rest with
      | [] => none
      | e :: r2 =>
        if e = 'u' then
          match r2 with
          | h1 :: h2 :: h3 :: h4 :: r3 =>
            match hexVal h1, hexVal h2, hexVal h3, hexVal h4 with
            | some a, some b, some c2, some d =>
              (parseStringBody fuel r3).map
                (fun p => (Char.ofNat (((a * 16 + b) * 16 + c2) * 16 + d) :: p.1, p.2))
            | _, _, _, _ => none
          | _ => none
        else
          match escMap e with
          | some ch => (parseStringBody fuel r2).map (fun p => (ch :: p.1, p.2))
          | none => none
    else if c.toNat < 32 then none
    else (parseStringBody fuel rest).map (fun p => (c :: p.1, p.2))

def digitsToNat (ds : List Char) : Nat :=
  ds.foldl (fun n c => n * 10 + (c.toNat - 48)) 0

/-- Parses the optional fraction part `.digits`; if the dot is not followed
by a digit it is left unconsumed, matching the JSON number regex. -/
def parseFracPart (s : List Char) : Option (List Char) × List Char :=
  match s with
  | '.' :: rr =>
    let fs := rr.takeWhile Char.isDigit
    if fs.isEmpty then (none, s) else (some fs, rr.drop fs.length)
  | _ => (none, s)

/-- Parses the optional exponent part `e[+-]digits`; left unconsumed when
incomplete, matching the JSON number regex. -/
def parseExpPart (s : List Char) : Option (Bool × List Char) × List Char :=
  match s with
  | e :: rr =>
    if e = 'e' || e = 'E' then
      match rr with
      | '-' :: r2 =>
        let ds := r2.takeWhile Char.isDigit
        if ds.isEmpty then (none, s) else (some (true, ds), r2.drop ds.length)
      | '+' :: r2 =>
        let ds := r2.takeWhile Char.isDigit
        if ds.isEmpty then (none, s) else (some (false, ds), r2.drop ds.length)
      | _ =>
        let ds := rr.takeWhile Char.isDigit
        if ds.isEmpty then (none, s) else (some (false, ds), rr.drop ds.length)
    else (none, s)
  | [] => (none, s)

def mkNumber (neg : Bool) (ip : List Char) (fp : Option (List Char))
    (ep : Option (Bool × List Char)) : Json :=
  match fp, ep with
  | none, none =>
    let n : Int := Int.ofNat (digitsToNat ip)
    .num (if neg then -n else n)
  | _, _ => .flt neg ip fp ep

/-- Parses a JSON number token per the grammar
`-? (0 | [1-9][0-9]*) (. [0-9]+)? ([eE][+-]?[0-9]+)?`. -/
def parseNumber (s : List Char) : Option (Json × List Char) :=
  let p : Bool × List Char := match s with
    | '-' :: r => (true, r)
    | _ => (false, s)
  match p.2 with
  | [] => none
  | c :: rest =>
    if c = '0' then
      let (fp, r1) := parseFracPart rest
      let (ep, r2) := parseExpPart r1
      some (mkNumber p.1 ['0'] fp ep, r2)
    else if c.isDigit then
      let ds := rest.takeWhile Char.isDigit
      let (fp, r1) := parseFracPart (rest.drop ds.length)
      let (ep, r2) := parseExpPart r1
      some (mkNumber p.1 (c :: ds) fp ep, r2)
    else none

/-- Inserts a decoded object member with Python-dict semantics: an existing
key is updated in place, a new key is appended. -/
def objInsert (acc : List (List Char × Json)) (k : List Char) (v : Json) :
    List (List Char × Json) :=
  if (acc.lookup k).isSome then
    acc.map (fun kv => if kv.1 == k then (kv.1, v) else kv)
  else acc ++ [(k, v)]

mutual

/-- Fuelled recursive-descent parser for one JSON value, modelling the
grammar accepted by Python `json.loads` (including its nonstandard
`NaN`/`Infinity` literals). -/
def parseValue : Nat → List Char → Option (Json × List Char)
  | 0, _ => none
  | fuel + 1, s0 =>
    match skipJsonWs s0 with
    | [] => none
    | '{' :: rest => parseObjectBody fuel rest
    | '[' :: rest => parseArrayBody fuel rest
    | '"' :: rest =>
      (parseStringBody (rest.length + 1) rest).map (fun p => (Json.str p.1, p.2))
    | 't' :: rest =>
      if leadsWith ['r', 'u', 'e'] rest then some (Json.bool true, rest.drop 3) else none
    | 'f' :: rest =>
      if leadsWith ['a', 'l', 's', 'e'] rest then some (Json.bool false, rest.drop 4) else none
    | 'n' :: rest =>
      if leadsWith ['u', 'l', 'l'] rest then some (Json.null, rest.drop 3) else none
    | 'N' :: rest =>
      if leadsWith ['a', 'N'] rest then some (Json.nan, rest.drop 2) else none
    | 'I' :: rest =>
      if leadsWith ['n', 'f', 'i', 'n', 'i', 't', 'y'] rest then
        some (Json.inf false, rest.drop 7)
      else none
    | '-' :: rest =>
      if leadsWith ['I', 'n', 'f', 'i', 'n', 'i', 't', 'y'] rest then
        some (Json.inf true, rest.drop 8)
      else parseNumber ('-' :: rest)
    | c :: rest =>
      if c.isDigit then parseNumber (c :: rest) else none

/-- Parses an object after the opening brace. -/
def parseObjectBody : Nat → List Char → Option (Json × List Char)
  | 0, _ => none
  | fuel + 1, s0 =>
    match skipJsonWs s0 with
    | '}' :: rest => some (Json.obj [], rest)
    | s => parseMembers fuel s []

/-- Parses `"key": value` members separated by commas, then the closing
brace. -/
def parseMembers : Nat → List Char → List (List Char × Json) →
    Option (Json × List Char)
  | 0, _, _ => none
  | fuel + 1, s0, acc =>
    match skipJsonWs s0 with
    | '"' :: rest =>
      match parseStringBody (rest.length + 1) rest with
      | none => none
      | some (key, r1) =>
        match skipJsonWs r1 with
        | ':' :: r2 =>
          match parseValue fuel r2 with
          | none => none
          | some (v, r3) =>
            match skipJsonWs r3 with
            | ',' :: r4 => parseMembers fuel r4 (objInsert acc key v)
            | '}' :: r4 => some (Json.obj (objInsert acc key v), r4)
            | _ => none
        | _ => none
    | _ => none

/-- Parses an array after the opening bracket. -/
def parseArrayBody : Nat → List Char → Option (Json × List Char)
  | 0, _ => none
  | fuel + 1, s0 =>
    match skipJsonWs s0 with
    | ']' :: rest => some (Json.arr [], rest)
    | s => parseItems fuel s []

/-- Parses array items separated by commas, then the closing bracket. -/
def parseItems : Nat → List Char → List Json → Option (Json × List Char)
  | 0, _, _ => none
  | fuel + 1, s0, acc =>
    match parseValue fuel s0 with
    | none => none
    | some (v, r1) =>
      match skipJsonWs r1 with
      | ',' :: r2 => parseItems fuel r2 (acc ++ [v])
      | ']' :: r2 => some (Json.arr (acc ++ [v]), r2)
      | _ => none

end

/-- The exception raised by `json.loads` on malformed input. -/
inductive JsonDecodeError where
  | decodeError : JsonDecodeError
deriving DecidableEq

/-- Models Python `json.loads`: parse one value, allow trailing whitespace
only, raise `JSONDecodeError` otherwise.  (Resource exhaustion such as
`RecursionError` on pathologically deep nesting is outside the model.) -/
def pyJsonLoads (s : List Char) : Except JsonDecodeError Json :=
  match parseValue (3 * s.length + 8) s with
  | some (v, rest) => if (skipJsonWs rest).isEmpty then .ok v else .error .decodeError
  | none => .error .decodeError

/-- Exceptions that pipeline code can raise (beyond `JSONDecodeError`,
which `safe_json_loads` catches). -/
inductive PyExn where
  | attributeError : PyExn
  | typeError : PyExn
deriving DecidableEq

/-- The diagnostic line printed by `safe_json_loads` on failure, tagged
with the caller-supplied context label. -/
def warnMsg (ctx : List Char) : List Char :=
  ("[WARN] Failed to parse JSON for ".data) ++ ctx

/-- Models `re.search(r"\x5c{.*\x5c}", raw, re.DOTALL)`: with greedy `.*`
and DOTALL, the leftmost-longest match runs from the first brace-opening
character to the last brace-closing character, when the first precedes the
last. -/
def braceRegion (raw : List Char) : Option (List Char) :=
  match charIdxFirst '\x7b' raw, charIdxLast '\x7d' raw with
  | some i, some j => if i < j then some ((raw.drop i).take (j - i + 1)) else none
  | _, _ => none

/-- Models `safe_json_loads` (autoresume.py lines 27-42): try a direct
`json.loads`; on `JSONDecodeError`, extract the first `{...}` block and try
again; on failure print one `[WARN]` diagnostic and return `None`.  The
result pairs the parsed value with the list of diagnostics printed; the
`Except` layer records that no exception escapes (every branch is `.ok`).
-/
def safe_json_loads (raw ctx : List Char) :
    Except JsonDecodeError (Option Json × List (List Char)) :=
  match pyJsonLoads raw with
  | .ok v => .ok (some v, [])
  | .error _ =>
    match braceRegion raw with
    | some sub =>
      match pyJsonLoads sub with
      | .ok v => .ok (some v, [])
      | .error _ => .ok (none, [warnMsg ctx])
    | none => .ok (none, [warnMsg ctx])

/-- The value-level view of `safe_json_loads` used by its callers. -/
def safe_json_loads_val (raw ctx : List Char) : Option Json × List (List Char) :=
  match safe_json_loads raw ctx with
  | .ok v => v
  | .error _ => (none, [])

/-- The fixed 12-cluster taxonomy (autoresume.py lines 61-74 and 141-154).
-/
def clusters : List String :=
  ["backend", "frontend", "fullstack", "data_ml", "cloud_devops",
   "testing_quality", "performance_scalability", "security_reliability",
   "product_user_focus", "teamwork_communication", "learning_growth",
   "domain_industry"]

/-- Models Python `dict.setdefault(k, d)` on a decoded JSON object: a
missing key is appended with the default, an existing key is untouched. -/
def setdefaultKey (o : List (List Char × Json)) (k : List Char) (d : Json) :
    List (List Char × Json) :=
  if (o.lookup k).isSome then o else o ++ [(k, d)]

/-- Context label used by `extract_signal_weights`. -/
def jdSignalsLabel : List Char := "JD signals".data

/-- Context label used by `tag_resume_bullets`. -/
def bulletTagLabel : List Char := "bullet tagging".data

/-- Models the post-oracle part of `extract_signal_weights` (autoresume.py
lines 123-131) as a function of the oracle's reply text: decode via
`safe_json_loads`; `if not data: return None` (which treats any falsy
decoded value, including the empty record, as failure); otherwise apply
the four `setdefault` calls.  A truthy non-record decoded value would make
`data.setdefault` raise `AttributeError`. -/
def extract_signal_weights (reply : List Char) :
    Except PyExn (Option (List (List Char × Json))) :=
  match (safe_json_loads_val reply jdSignalsLabel).1 with
  | none => .ok none
  | some d =>
    if pyFalsy d then .ok none
    else
      match d with
      | .obj o =>
        .ok (some (setdefaultKey (setdefaultKey (setdefaultKey (setdefaultKey
          o ("signal_weights".data) (.obj []))
          ("top_5_signals".data) (.arr []))
          ("top_keywords".data) (.arr []))
          ("domain_phrases".data) (.arr [])))
      | _ => .error .attributeError

/-- Models the post-oracle part of `tag_resume_bullets` (autoresume.py
lines 188-195) as a function of the oracle's reply text: decode via
`safe_json_loads`; `if not data: return []`; read `tagged_bullets` with
default `[]`; return `[]` unless it is a list.  A truthy non-record
decoded value makes `data.get` raise `AttributeError`. -/
def tag_resume_bullets (reply : List Char) : Except PyExn (List Json) :=
  match (safe_json_loads_val reply bulletTagLabel).1 with
  | none => .ok []
  | some d =>
    if pyFalsy d then .ok []
    else
      match d with
      | .obj o =>
        match (o.lookup ("tagged_bullets".data)).getD (.arr []) with
        | .arr l => .ok l
        | _ => .ok []
      | _ => .error .attributeError

/-- One tagged unit as consumed by the scoring loop: the two fields read
via `bullet.get`, each possibly absent. -/
structure RawBullet where
  bullet_text : Option String
  tags : Option (List String)
deriving DecidableEq

/-- One scored unit as built by the scoring loop. -/
structure ScoredBullet where
  bullet_text : String
  tags : List String
  alignment_score : Int
deriving DecidableEq

/-- Models `sum(int(weights.get(tag, 0)) for tag in tags)` (autoresume.py
line 210) for integer-valued weights, on which `int()` is the identity. -/
def alignmentScore (weights : List (String × Int)) (tags : List String) : Int :=
  (tags.map (fun tag => ((weights.lookup tag).getD 0))).sum

/-- Models the construction of one scored bullet (autoresume.py lines
208-217): `bullet.get("bullet_text", "")`, `bullet.get("tags", []) or []`,
and the computed score. -/
def mkScoredBullet (weights : List (String × Int)) (b : RawBullet) : ScoredBullet :=
  { bullet_text := b.bullet_text.getD ""
    tags := b.tags.getD []
    alignment_score := alignmentScore weights (b.tags.getD []) }

/-- Stable descending insertion used to model Python's stable
`list.sort(key=..., reverse=True)`: the new element goes before the first
element whose score is not larger, so equal-score elements keep input
order. -/
def insertDesc (u : ScoredBullet) : List ScoredBullet → List ScoredBullet
  | [] => [u]
  | v :: rest =>
    if v.alignment_score ≤ u.alignment_score then u :: v :: rest
    else v :: insertDesc u rest

/-- Stable sort by descending `alignment_score`, extensionally equal to
`scored_bullets.sort(key=lambda x: x["alignment_score"], reverse=True)`
(autoresume.py line 219). -/
def sortByScoreDesc : List ScoredBullet → List ScoredBullet
  | [] => []
  | u :: rest => insertDesc u (sortByScoreDesc rest)

/-- Models the pure scoring-and-ranking part of `score_and_adjust_bullets`
(autoresume.py lines 205-219): build each scored bullet, then stably sort
by descending alignment score. -/
def score_and_adjust_bullets (weights : List (String × Int))
    (tagged_bullets : List RawBullet) : List ScoredBullet :=
  sortByScoreDesc (tagged_bullets.map (mkScoredBullet weights))

/-- The LaTeX begin-marker searched for in the rewrite reply. -/
def beginMarker : List Char := "\\documentclass".data

/-- The LaTeX end-marker searched for in the rewrite reply. -/
def endMarker : List Char := "\\end\x7bdocument\x7d".data

/-- Code-fence markers stripped from the extracted text. -/
def fenceLatex : List Char := "```latex".data

/-- Bare code-fence marker. -/
def fenceBare : List Char := "```".data

/-- Models the extraction step of `score_and_adjust_bullets` (autoresume.py
lines 304-311): `re.search(r"\x5c\x5cdocumentclass.*?\x5c\x5cend\x5c{document\x5c}", raw,
re.DOTALL)` — a LAZY `.*?`, so the match runs from the first begin-marker
to the FIRST end-marker after it — keep the match if found, else the raw
text; then strip fences and whitespace. -/
def extract_latex_document (raw : List Char) : List Char :=
  let t :=
    match findSub beginMarker raw with
    | some i =>
      match findSub endMarker (raw.drop (i + 14)) with
      | some k => (raw.drop i).take (14 + k + 14)
      | none => raw
    | none => raw
  pyStrip (pyReplace fenceBare [] (pyReplace fenceLatex [] t))

/-- Follows the spec's words, for comparison with `extract_latex_document`:
the spec says the matching spans GREEDILY, i.e. from the first begin-marker
to the LAST end-marker after it. -/
def extract_latex_document_specGreedy (raw : List Char) : List Char :=
  let t :=
    match findSub beginMarker raw with
    | some i =>
      match findSubLast endMarker (raw.drop (i + 14)) with
      | some k => (raw.drop i).take (14 + k + 14)
      | none => raw
    | none => raw
  pyStrip (pyReplace fenceBare [] (pyReplace fenceLatex [] t))

/-- Typed view of one decoded bullet record, modelling the `bullet.get`
field accesses of the scoring loop for well-typed bullets (string text,
list-of-strings tags, either possibly absent or null); other shapes are
rejected conservatively. -/
def bulletOfJson : Json → Except PyExn RawBullet
  | .obj o =>
    match (o.lookup ("bullet_text".data), o.lookup ("tags".data)) with
    | (none, none) => .ok ⟨none, none⟩
    | (none, some .null) => .ok ⟨none, none⟩
    | (some (.str t), none) => .ok ⟨some (String.mk t), none⟩
    | (some (.str t), some .null) => .ok ⟨some (String.mk t), none⟩
    | (none, some (.arr tags)) =>
      match tags.mapM (fun j => match j with | .str u => some (String.mk u) | _ => none) with
      | some ts => .ok ⟨none, some ts⟩
      | none => .error .typeError
    | (some (.str t), some (.arr tags)) =>
      match tags.mapM (fun j => match j with | .str u => some (String.mk u) | _ => none) with
      | some ts => .ok ⟨some (String.mk t), some ts⟩
      | none => .error .typeError
    | (_, _) => .error .typeError
  | _ => .error .attributeError

/-- The tagger-to-scorer slice of the pipeline: tag the bullets from the
oracle reply, then score and rank them.  Used to state that a failed
tagger decode still reaches the scorer. -/
def runTagThenScore (reply : List Char) (weights : List (String × Int)) :
    Except PyExn (List ScoredBullet) :=
  match tag_resume_bullets reply with
  | .error e => .error e
  | .ok tagged =>
    match tagged.mapM bulletOfJson with
    | .error e => .error e
    | .ok bs => .ok (score_and_adjust_bullets weights bs)

-- ===== Theorems =====

theorem leadsWith_iff (p : List Char) : ∀ s, leadsWith p s = true ↔ p <+: s := by
  induction p with
  | nil => intro s; simp [leadsWith]
  | cons x xs ih =>
    intro s
    cases s with
    | nil => simp [leadsWith]
    | cons c cs =>
      simp only [leadsWith, Bool.and_eq_true, beq_iff_eq, List.cons_prefix_cons]
      exact and_congr Iff.rfl (ih cs)

theorem findSub_some (pat : List Char) :
    ∀ (s : List Char) (i : Nat), findSub pat s = some i →
      occursAt pat s i ∧ ∀ k, k < i → ¬ occursAt pat s k := by
  intro s
  induction s with
  | nil =>
    intro i h
    simp only [findSub] at h
    split at h
    · rename_i hl
      cases h
      refine ⟨?_, by omega⟩
      exact (leadsWith_iff pat []).mp hl
    · cases h
  | cons c rest ih =>
    intro i h
    simp only [findSub] at h
    split at h
    · rename_i hl
      cases h
      refine ⟨(leadsWith_iff pat _).mp hl, by omega⟩
    · rename_i hl
      cases hfs : findSub pat rest with
      | none => rw [hfs] at h; cases h
      | some j =>
        rw [hfs] at h
        simp only [Option.map_some'] at h
        cases h
        obtain ⟨h1, h2⟩ := ih j hfs
        constructor
        · exact h1
        · intro k hk
          cases k with
          | zero =>
            intro hocc
            exact absurd ((leadsWith_iff pat (c :: rest)).mpr hocc) (by simp [hl])
          | succ k' =>
            intro hocc
            exact h2 k' (by omega) hocc

theorem findSub_none (pat : List Char) :
    ∀ (s : List Char), findSub pat s = none → ∀ i, ¬ occursAt pat s i := by
  intro s
  induction s with
  | nil =>
    intro h i hocc
    simp only [findSub] at h
    split at h
    · cases h
    · rename_i hl
      cases i with
      | zero => exact absurd ((leadsWith_iff pat []).mpr hocc) (by simp [hl])
      | succ j =>
        simp only [occursAt, List.drop_nil] at hocc
        exact absurd ((leadsWith_iff pat []).mpr hocc) (by simp [hl])
  | cons c rest ih =>
    intro h i hocc
    simp only [findSub] at h
    split at h
    · cases h
    · rename_i hl
      cases hfs : findSub pat rest with
      | none =>
        cases i with
        | zero => exact absurd ((leadsWith_iff pat _).mpr hocc) (by simp [hl])
        | succ j => exact ih hfs j hocc
      | some j => rw [hfs] at h; cases h

theorem occursAt_of_findSub_some {pat s : List Char} {i : Nat}
    (h : findSub pat s = some i) : occursAt pat s i :=
  (findSub_some pat s i h).1

theorem findSub_of_leadsWith {pat s : List Char}
    (h : leadsWith pat s = true) : findSub pat s = some 0 := by
  cases s with
  | nil => simp [findSub, h]
  | cons c rest => simp [findSub, h]

/-- If `pat` never occurs in `s` then replacing it is the identity. -/
theorem replFuel_id (pat rep : List Char) :
    ∀ (fuel : Nat) (s : List Char), (∀ i, ¬ occursAt pat s i) →
      replFuel pat rep fuel s = s := by
  intro fuel
  induction fuel with
  | zero => intro s _; rfl
  | succ f ih =>
    intro s h
    cases s with
    | nil => rfl
    | cons c rest =>
      simp only [replFuel]
      split
      · rename_i hl
        exact absurd ((leadsWith_iff pat _).mp hl) (h 0)
      · congr 1
        exact ih rest (fun i hi => h (i + 1) hi)

theorem pyReplace_id {pat : List Char} (rep : List Char) {s : List Char}
    (h : containsSub pat s = false) : pyReplace pat rep s = s := by
  unfold pyReplace
  apply replFuel_id
  intro i
  unfold containsSub at h
  cases hfs : findSub pat s with
  | none => exact findSub_none pat s hfs i
  | some j => rw [hfs] at h; cases h

example : pyJsonLoads ("5".data) = .ok (Json.num 5) := rfl
example : pyJsonLoads ("[[0]]".data) = .ok (Json.arr [Json.arr [Json.num 0]]) := rfl
example : pyJsonLoads (" \x7b\"a\": 1, \"b\": [2,3]\x7d ".data) =
    .ok (Json.obj [("a".data, Json.num 1),
      ("b".data, Json.arr [Json.num 2, Json.num 3])]) := rfl
example : pyJsonLoads ("hello".data) = .error .decodeError := rfl
example : pyJsonLoads ("\x7b\x7d".data) = .ok (Json.obj []) := rfl
example : pyJsonLoads ("-2.5e3".data) =
    .ok (Json.flt true ['2'] (some ['5']) (some (false, ['3']))) := rfl
example : pyJsonLoads ("\"a\\nb\"".data) = .ok (Json.str ['a', '\n', 'b']) := rfl
example : pyJsonLoads ("01".data) = .error .decodeError := rfl

theorem charIdxFirst_get (ch : Char) :
    ∀ (s : List Char) (i : Nat), charIdxFirst ch s = some i → s.get? i = some ch := by
  intro s
  induction s with
  | nil => intro i h; cases h
  | cons x rest ih =>
    intro i h
    simp only [charIdxFirst] at h
    split at h
    · rename_i hx; cases h; simp [hx]
    · cases hfs : charIdxFirst ch rest with
      | none => rw [hfs] at h; cases h
      | some j =>
        rw [hfs] at h
        simp only [Option.map_some'] at h
        cases h
        simpa using ih j hfs

theorem charIdxLast_get (ch : Char) :
    ∀ (s : List Char) (j : Nat), charIdxLast ch s = some j → s.get? j = some ch := by
  intro s
  induction s with
  | nil => intro j h; cases h
  | cons x rest ih =>
    intro j h
    cases hfs : charIdxLast ch rest with
    | some k =>
      simp only [charIdxLast, hfs] at h
      cases h
      simpa using ih k hfs
    | none =>
      simp only [charIdxLast, hfs] at h
      by_cases hx : x = ch
      · rw [if_pos hx] at h; cases h; simp [hx]
      · rw [if_neg hx] at h; cases h

theorem get?_lt_length {s : List Char} {i : Nat} {c : Char}
    (h : s.get? i = some c) : i < s.length := by
  by_contra hge
  rw [List.get?_eq_none.mpr (by omega)] at h
  cases h

/-- If no brace-opening character precedes a brace-closing character in
the input, the brace-block regex finds no match. -/
theorem braceRegion_eq_none {raw : List Char}
    (h : ∀ i, i < raw.length → ∀ j, j < raw.length → i < j →
      ¬(raw.get? i = some '\x7b' ∧ raw.get? j = some '\x7d')) :
    braceRegion raw = none := by
  unfold braceRegion
  cases h1 : charIdxFirst '\x7b' raw with
  | none => rfl
  | some i =>
    cases h2 : charIdxLast '\x7d' raw with
    | none => rfl
    | some j =>
      simp only
      split
      · rename_i hij
        have g1 := charIdxFirst_get _ _ _ h1
        have g2 := charIdxLast_get _ _ _ h2
        exact absurd ⟨g1, g2⟩ (h i (get?_lt_length g1) j (get?_lt_length g2) hij)
      · rfl

theorem lookup_append {α β : Type} [BEq α] (l₁ l₂ : List (α × β)) (k : α) :
    (l₁ ++ l₂).lookup k = ((l₁.lookup k).or (l₂.lookup k)) := by
  induction l₁ with
  | nil => simp [List.lookup]
  | cons p rest ih =>
    cases p with
    | mk a b =>
      simp only [List.cons_append, List.lookup]
      split <;> simp [ih]

theorem setdefault_lookup_self (o : List (List Char × Json)) (k : List Char)
    (d : Json) : (setdefaultKey o k d).lookup k = some ((o.lookup k).getD d) := by
  unfold setdefaultKey
  split
  · rename_i hs
    cases h : o.lookup k with
    | none => rw [h] at hs; cases hs
    | some v => simp [h]
  · rename_i hs
    cases h : o.lookup k with
    | none =>
      rw [lookup_append, h]
      simp [List.lookup]
    | some v => rw [h] at hs; simp at hs

theorem setdefault_lookup_other (o : List (List Char × Json)) {k k' : List Char}
    (d : Json) (h : k' ≠ k) :
    (setdefaultKey o k d).lookup k' = o.lookup k' := by
  unfold setdefaultKey
  split
  · rfl
  · rw [lookup_append]
    cases ho : o.lookup k' with
    | some v => simp
    | none =>
      simp only [Option.none_or]
      have hb : (k' == k) = false := beq_eq_false_iff_ne.mpr h
      simp [List.lookup, hb]

theorem setdefault_lookup_some {o : List (List Char × Json)} {k' : List Char}
    {v : Json} (k : List Char) (d : Json) (h : o.lookup k' = some v) :
    (setdefaultKey o k d).lookup k' = some v := by
  by_cases hk : k' = k
  · subst hk
    rw [setdefault_lookup_self, h]
    rfl
  · rw [setdefault_lookup_other o d hk, h]

/-- Claim C4: for every input string, `safe_json_loads` terminates normally
with either a decoded value or an absent result and never lets an
exception escape to its caller — every branch of the function returns
`.ok`, because the decode attempts are wrapped in `try`/`except`. -/
theorem safe_json_loads_never_raises (raw ctx : List Char) :
    ∃ v : Option Json × List (List Char), safe_json_loads raw ctx = .ok v := by
  unfold safe_json_loads
  split
  · exact ⟨_, rfl⟩
  · split
    · split
      · exact ⟨_, rfl⟩
      · exact ⟨_, rfl⟩
    · exact ⟨_, rfl⟩

/-- Claim C3 counterexample: the input `5` contains no brace-delimited
region at all, yet `safe_json_loads` returns a present decoded value and
prints no diagnostic, because the direct full-string decode succeeds; this
refutes the claim that an input with no brace-delimited region always
yields an absent result and one diagnostic. -/
theorem safe_json_loads_no_brace_cex :
    safe_json_loads_val ("5".data) ("ctx".data) = (some (Json.num 5), [])
    ∧ charIdxFirst '\x7b' ("5".data) = none
    ∧ charIdxLast '\x7d' ("5".data) = none :=
  ⟨rfl, rfl, rfl⟩

/-- Claim C3 (amended: the absent-result-plus-one-diagnostic outcome on a
brace-free input additionally requires the direct full-string decode to
fail): the parser decodes the documented noisy literal to the record
`{"a": 1, "b": [2,3]}` with no diagnostic; when the direct decode fails
and no brace-opening character precedes a brace-closing one, it returns an
absent result and exactly one diagnostic tagged with the caller-supplied
context label; and when the direct decode, on failure, finds a brace
region whose decode also fails, the same single tagged diagnostic is
emitted. -/
theorem safe_json_loads_fallback :
    (∀ ctx : List Char,
      safe_json_loads_val (("Note: here is the result\n\x7b\"a\": 1, \"b\": [2,3]\x7d\nThanks").data) ctx
        = (some (Json.obj [(("a").data, Json.num 1),
            (("b").data, Json.arr [Json.num 2, Json.num 3])]), []))
    ∧ (∀ raw ctx : List Char, pyJsonLoads raw = .error .decodeError →
        (∀ i, i < raw.length → ∀ j, j < raw.length → i < j →
          ¬(raw.get? i = some '\x7b' ∧ raw.get? j = some '\x7d')) →
        safe_json_loads_val raw ctx = (none, [warnMsg ctx]))
    ∧ (∀ raw ctx sub : List Char, pyJsonLoads raw = .error .decodeError →
        braceRegion raw = some sub → pyJsonLoads sub = .error .decodeError →
        safe_json_loads_val raw ctx = (none, [warnMsg ctx])) := by
  refine ⟨fun ctx => rfl, ?_, ?_⟩
  · intro raw ctx hdec hbr
    unfold safe_json_loads_val safe_json_loads
    simp only [hdec, braceRegion_eq_none hbr]
  · intro raw ctx sub hdec hbr hsub
    unfold safe_json_loads_val safe_json_loads
    simp only [hdec, hbr, hsub]

/-- Witness for `safe_json_loads_fallback` at the concrete brace-free
non-JSON input `hello` with context label `demo`. -/
theorem safe_json_loads_fallback_witness :
    pyJsonLoads ("hello".data) = .error .decodeError
    ∧ safe_json_loads_val ("hello".data) ("demo".data)
        = (none, [warnMsg ("demo".data)]) :=
  ⟨rfl, safe_json_loads_fallback.2.1 ("hello".data) ("demo".data) rfl (by decide)⟩

/-- Claim C5 counterexample: the reply `{}` decodes successfully to a
record, yet `extract_signal_weights` returns an absent profile rather than
a record with the four keys defaulted, because `if not data` treats the
empty record as a decode failure. -/
theorem extract_signal_weights_empty_record_cex :
    pyJsonLoads ("\x7b\x7d".data) = .ok (Json.obj [])
    ∧ extract_signal_weights ("\x7b\x7d".data) = .ok none :=
  ⟨rfl, rfl⟩

/-- Claim C5 (amended: the four-key defaulting holds for every successfully
decoded NON-EMPTY record; an empty decoded record is treated like a decode
failure and yields no profile): on decode failure the profiler returns no
profile; on a non-empty decoded record the output has all four of
`signal_weights`/`top_5_signals`/`top_keywords`/`domain_phrases` present,
with each missing key defaulted to an empty container and each present key
kept verbatim; in particular a decoded record missing only
`domain_phrases` yields an output whose `domain_phrases` is the empty
sequence. -/
theorem extract_signal_weights_defaults :
    (∀ reply : List Char, (safe_json_loads_val reply jdSignalsLabel).1 = none →
        extract_signal_weights reply = .ok none)
    ∧ (∀ (reply : List Char) (o : List (List Char × Json)),
        (safe_json_loads_val reply jdSignalsLabel).1 = some (.obj o) →
        o.isEmpty = false →
        ∃ o', extract_signal_weights reply = .ok (some o')
          ∧ (∀ k, k ∈ [("signal_weights".data), ("top_5_signals".data),
                ("top_keywords".data), ("domain_phrases".data)] →
              ∃ v, o'.lookup k = some v)
          ∧ (o.lookup ("signal_weights".data) = none →
              o'.lookup ("signal_weights".data) = some (.obj []))
          ∧ (o.lookup ("top_5_signals".data) = none →
              o'.lookup ("top_5_signals".data) = some (.arr []))
          ∧ (o.lookup ("top_keywords".data) = none →
              o'.lookup ("top_keywords".data) = some (.arr []))
          ∧ (o.lookup ("domain_phrases".data) = none →
              o'.lookup ("domain_phrases".data) = some (.arr []))
          ∧ (∀ k v, o.lookup k = some v → o'.lookup k = some v)) := by
  constructor
  · intro reply h
    unfold extract_signal_weights
    rw [h]
  · intro reply o h hne
    unfold extract_signal_weights
    have hfalsy : pyFalsy (Json.obj o) = false := by simpa [pyFalsy] using hne
    simp only [h, hfalsy, Bool.false_eq_true, if_false]
    refine ⟨_, rfl, ?_, ?_, ?_, ?_, ?_, ?_⟩
    · intro k hk
      simp only [List.mem_cons, List.mem_singleton] at hk
      rcases hk with h1 | h2 | h3 | h4 | h5
      · subst h1
        exact ⟨_, setdefault_lookup_some _ _ (setdefault_lookup_some _ _
          (setdefault_lookup_some _ _ (setdefault_lookup_self o _ _)))⟩
      · subst h2
        exact ⟨_, setdefault_lookup_some _ _ (setdefault_lookup_some _ _
          (setdefault_lookup_self _ _ _))⟩
      · subst h3
        exact ⟨_, setdefault_lookup_some _ _ (setdefault_lookup_self _ _ _)⟩
      · subst h4
        exact ⟨_, setdefault_lookup_self _ _ _⟩
      · cases h5
    · intro hmiss
      apply setdefault_lookup_some
      apply setdefault_lookup_some
      apply setdefault_lookup_some
      rw [setdefault_lookup_self, hmiss]
      rfl
    · intro hmiss
      apply setdefault_lookup_some
      apply setdefault_lookup_some
      rw [setdefault_lookup_self, setdefault_lookup_other _ _ (by decide), hmiss]
      rfl
    · intro hmiss
      apply setdefault_lookup_some
      rw [setdefault_lookup_self, setdefault_lookup_other _ _ (by decide),
        setdefault_lookup_other _ _ (by decide), hmiss]
      rfl
    · intro hmiss
      rw [setdefault_lookup_self, setdefault_lookup_other _ _ (by decide),
        setdefault_lookup_other _ _ (by decide),
        setdefault_lookup_other _ _ (by decide), hmiss]
      rfl
    · intro k v hv
      apply setdefault_lookup_some
      apply setdefault_lookup_some
      apply setdefault_lookup_some
      exact setdefault_lookup_some _ _ hv

/-- Witness for `extract_signal_weights_defaults` at a concrete reply whose
decoded record has `signal_weights`, `top_5_signals` and `top_keywords`
but is missing only `domain_phrases`. -/
theorem extract_signal_weights_defaults_witness :
    (safe_json_loads_val (("\x7b\"signal_weights\": \x7b\"backend\": 9\x7d, \"top_5_signals\": [\"backend\"], \"top_keywords\": [\"python\"]\x7d").data) jdSignalsLabel).1
      = some (.obj [(("signal_weights").data, .obj [(("backend").data, .num 9)]),
          (("top_5_signals").data, .arr [.str (("backend").data)]),
          (("top_keywords").data, .arr [.str (("python").data)])])
    ∧ ([(("signal_weights").data, Json.obj [(("backend").data, Json.num 9)]),
          (("top_5_signals").data, Json.arr [.str (("backend").data)]),
          (("top_keywords").data, Json.arr [.str (("python").data)])]).isEmpty = false
    ∧ ∃ o', extract_signal_weights (("\x7b\"signal_weights\": \x7b\"backend\": 9\x7d, \"top_5_signals\": [\"backend\"], \"top_keywords\": [\"python\"]\x7d").data) = .ok (some o')
        ∧ (∀ k, k ∈ [(("signal_weights").data), (("top_5_signals").data),
              (("top_keywords").data), (("domain_phrases").data)] →
            ∃ v, o'.lookup k = some v)
        ∧ ([(("signal_weights").data, Json.obj [(("backend").data, Json.num 9)]),
              (("top_5_signals").data, Json.arr [.str (("backend").data)]),
              (("top_keywords").data, Json.arr [.str (("python").data)])].lookup (("signal_weights").data) = none →
            o'.lookup (("signal_weights").data) = some (.obj []))
        ∧ ([(("signal_weights").data, Json.obj [(("backend").data, Json.num 9)]),
              (("top_5_signals").data, Json.arr [.str (("backend").data)]),
              (("top_keywords").data, Json.arr [.str (("python").data)])].lookup (("top_5_signals").data) = none →
            o'.lookup (("top_5_signals").data) = some (.arr []))
        ∧ ([(("signal_weights").data, Json.obj [(("backend").data, Json.num 9)]),
              (("top_5_signals").data, Json.arr [.str (("backend").data)]),
              (("top_keywords").data, Json.arr [.str (("python").data)])].lookup (("top_keywords").data) = none →
            o'.lookup (("top_keywords").data) = some (.arr []))
        ∧ ([(("signal_weights").data, Json.obj [(("backend").data, Json.num 9)]),
              (("top_5_signals").data, Json.arr [.str (("backend").data)]),
              (("top_keywords").data, Json.arr [.str (("python").data)])].lookup (("domain_phrases").data) = none →
            o'.lookup (("domain_phrases").data) = some (.arr []))
        ∧ (∀ k v, ([(("signal_weights").data, Json.obj [(("backend").data, Json.num 9)]),
              (("top_5_signals").data, Json.arr [.str (("backend").data)]),
              (("top_keywords").data, Json.arr [.str (("python").data)])].lookup k = some v) →
            o'.lookup k = some v) :=
  ⟨rfl, rfl, extract_signal_weights_defaults.2 _ _ rfl rfl⟩

/-- Claim C6 counterexample: the reply `[1, 2]` decodes successfully to a
truthy non-record value, and the tagger then raises `AttributeError` from
`data.get` instead of returning an empty sequence. -/
theorem tag_resume_bullets_nonrecord_cex :
    pyJsonLoads ("[1, 2]".data) = .ok (.arr [.num 1, .num 2])
    ∧ tag_resume_bullets ("[1, 2]".data) = .error .attributeError :=
  ⟨rfl, rfl⟩

/-- Claim C6 (amended: graceful degradation to an empty sequence holds when
decoding fails, when the decoded value is falsy, or when the decoded value
is a record whose tagged-units payload is not a sequence; a truthy
non-record decoded value instead raises `AttributeError`): in each graceful
case the tagger returns the empty sequence, and after a failed decode the
pipeline still reaches the scorer, which returns an empty ranking without
raising. -/
theorem tag_resume_bullets_degrades :
    (∀ reply : List Char, (safe_json_loads_val reply bulletTagLabel).1 = none →
        tag_resume_bullets reply = .ok [])
    ∧ (∀ (reply : List Char) (d : Json),
        (safe_json_loads_val reply bulletTagLabel).1 = some d → pyFalsy d = true →
        tag_resume_bullets reply = .ok [])
    ∧ (∀ (reply : List Char) (o : List (List Char × Json)),
        (safe_json_loads_val reply bulletTagLabel).1 = some (.obj o) →
        ((o.lookup (("tagged_bullets").data)).getD (.arr [])).isArr = false →
        tag_resume_bullets reply = .ok [])
    ∧ (∀ (reply : List Char) (weights : List (String × Int)),
        (safe_json_loads_val reply bulletTagLabel).1 = none →
        runTagThenScore reply weights = .ok []) := by
  have h1 : ∀ reply : List Char, (safe_json_loads_val reply bulletTagLabel).1 = none →
      tag_resume_bullets reply = .ok [] := by
    intro reply h
    unfold tag_resume_bullets
    rw [h]
  refine ⟨h1, ?_, ?_, ?_⟩
  · intro reply d h hf
    unfold tag_resume_bullets
    simp only [h, hf, if_true]
  · intro reply o h hshape
    unfold tag_resume_bullets
    simp only [h]
    split
    · rfl
    · cases hl : (o.lookup (("tagged_bullets").data)).getD (.arr []) with
      | arr l => rw [hl] at hshape; cases hshape
      | null => simp only [hl]
      | bool b => simp only [hl]
      | num n => simp only [hl]
      | flt a b c d => simp only [hl]
      | nan => simp only [hl]
      | inf b => simp only [hl]
      | str s => simp only [hl]
      | obj f => simp only [hl]
  · intro reply weights h
    unfold runTagThenScore
    rw [h1 reply h]
    rfl

/-- Witness for `tag_resume_bullets_degrades` at the concrete undecodable
reply `oops`. -/
theorem tag_resume_bullets_degrades_witness :
    (safe_json_loads_val ("oops".data) bulletTagLabel).1 = none
    ∧ tag_resume_bullets ("oops".data) = .ok []
    ∧ runTagThenScore ("oops".data) [("backend", 9)] = .ok [] :=
  ⟨rfl, tag_resume_bullets_degrades.1 ("oops".data) rfl,
    tag_resume_bullets_degrades.2.2.2 ("oops".data) [("backend", 9)] rfl⟩

theorem insertDesc_perm (u : ScoredBullet) :
    ∀ l : List ScoredBullet, (insertDesc u l).Perm (u :: l) := by
  intro l
  induction l with
  | nil => simp [insertDesc]
  | cons v rest ih =>
    unfold insertDesc
    split
    · exact List.Perm.refl _
    · exact ((ih.cons v).trans (List.Perm.swap u v rest)).symm.symm

theorem sortByScoreDesc_perm :
    ∀ l : List ScoredBullet, (sortByScoreDesc l).Perm l := by
  intro l
  induction l with
  | nil => exact List.Perm.refl _
  | cons u rest ih =>
    exact (insertDesc_perm u (sortByScoreDesc rest)).trans (ih.cons u)

theorem insertDesc_sorted (u : ScoredBullet) :
    ∀ l : List ScoredBullet,
      l.Pairwise (fun a b => b.alignment_score ≤ a.alignment_score) →
      (insertDesc u l).Pairwise (fun a b => b.alignment_score ≤ a.alignment_score) := by
  intro l
  induction l with
  | nil => intro _; simp [insertDesc]
  | cons v rest ih =>
    intro hs
    rw [List.pairwise_cons] at hs
    obtain ⟨hv, hrest⟩ := hs
    unfold insertDesc
    split
    · rename_i hle
      rw [List.pairwise_cons]
      constructor
      · intro b hb
        rcases List.mem_cons.mp hb with hb | hb
        · subst hb; exact hle
        · exact le_trans (hv b hb) hle
      · rw [List.pairwise_cons]
        exact ⟨hv, hrest⟩
    · rename_i hgt
      push_neg at hgt
      rw [List.pairwise_cons]
      constructor
      · intro b hb
        have hb' := (insertDesc_perm u rest).mem_iff.mp hb
        rcases List.mem_cons.mp hb' with hb' | hb'
        · subst hb'; exact le_of_lt hgt
        · exact hv b hb'
      · exact ih hrest

theorem sortByScoreDesc_sorted :
    ∀ l : List ScoredBullet,
      (sortByScoreDesc l).Pairwise (fun a b => b.alignment_score ≤ a.alignment_score) := by
  intro l
  induction l with
  | nil => simp [sortByScoreDesc]
  | cons u rest ih => exact insertDesc_sorted u (sortByScoreDesc rest) ih

theorem insertDesc_filter_score (u : ScoredBullet) (s : Int) :
    ∀ l : List ScoredBullet,
      (insertDesc u l).filter (fun x => x.alignment_score == s) =
        if u.alignment_score == s then
          u :: l.filter (fun x => x.alignment_score == s)
        else l.filter (fun x => x.alignment_score == s) := by
  intro l
  induction l with
  | nil =>
    simp only [insertDesc, List.filter]
    split <;> simp_all
  | cons v rest ih =>
    unfold insertDesc
    split
    · rename_i hle
      simp [List.filter_cons]
    · rename_i hgt
      push_neg at hgt
      by_cases hu : u.alignment_score = s
      · have hv : (v.alignment_score == s) = false := by
          apply beq_eq_false_iff_ne.mpr
          omega
        simp only [List.filter_cons, hv, ih, hu]
        simp
      · have hu' : (u.alignment_score == s) = false := beq_eq_false_iff_ne.mpr hu
        simp only [List.filter_cons, ih, hu']
        split <;> simp

theorem sortByScoreDesc_filter_score (s : Int) :
    ∀ l : List ScoredBullet,
      (sortByScoreDesc l).filter (fun x => x.alignment_score == s) =
        l.filter (fun x => x.alignment_score == s) := by
  intro l
  induction l with
  | nil => rfl
  | cons u rest ih =>
    show (insertDesc u (sortByScoreDesc rest)).filter _ = _
    rw [insertDesc_filter_score, ih, List.filter_cons]

theorem mem_score_and_adjust {weights : List (String × Int)}
    {bs : List RawBullet} {u : ScoredBullet}
    (h : u ∈ score_and_adjust_bullets weights bs) :
    ∃ b, b ∈ bs ∧ mkScoredBullet weights b = u := by
  unfold score_and_adjust_bullets at h
  have := (sortByScoreDesc_perm (bs.map (mkScoredBullet weights))).mem_iff.mp h
  exact List.mem_map.mp this

theorem lookup_eq_none_of_keys {w : List (String × Int)} {t : String}
    (hw : ∀ kv, kv ∈ w → kv.1 ∈ clusters) (ht : t ∉ clusters) :
    w.lookup t = none := by
  induction w with
  | nil => rfl
  | cons kv rest ih =>
    cases kv with
    | mk a b =>
      simp only [List.lookup]
      have ha : a ∈ clusters := hw (a, b) (List.mem_cons_self (a, b) rest)
      have : (t == a) = false := by
        apply beq_eq_false_iff_ne.mpr
        intro heq
        exact ht (heq ▸ ha)
      rw [this]
      exact ih (fun kv hkv => hw kv (List.mem_cons_of_mem _ hkv))

theorem alignmentScore_skip {w : List (String × Int)} {t : String}
    (h : w.lookup t = none) (l1 l2 : List String) :
    alignmentScore w (l1 ++ t :: l2) = alignmentScore w (l1 ++ l2) := by
  simp [alignmentScore, h]

/-- Claim C1: every unit ranked by the Scorer carries an alignment score
equal to the sum over its tags of the tag's weight, with a tag absent from
the weights mapping contributing 0; the computation is a pure function of
(tags, weights), so re-invoking it yields an identical score; and the
documented instance with weights backend=9, frontend=2 and both tags
scores exactly 11 (in either tag order). -/
theorem alignment_score_is_weight_sum :
    (∀ (weights : List (String × Int)) (bs : List RawBullet) (u : ScoredBullet),
      u ∈ score_and_adjust_bullets weights bs →
      u.alignment_score = (u.tags.map (fun tag => ((weights.lookup tag).getD 0))).sum)
    ∧ (∀ (weights : List (String × Int)) (tags : List String),
        alignmentScore weights tags = alignmentScore weights tags)
    ∧ alignmentScore [("backend", 9), ("frontend", 2)] ["backend", "frontend"] = 11
    ∧ alignmentScore [("backend", 9), ("frontend", 2)] ["frontend", "backend"] = 11 := by
  refine ⟨?_, fun _ _ => rfl, by decide, by decide⟩
  intro weights bs u hu
  obtain ⟨b, _, hb⟩ := mem_score_and_adjust hu
  subst hb
  rfl

/-- Witness for `alignment_score_is_weight_sum` at the documented concrete
instance: weights backend=9, frontend=2 and one unit tagged with both. -/
theorem alignment_score_is_weight_sum_witness :
    (⟨"unit", ["backend", "frontend"], 11⟩ : ScoredBullet) ∈
      score_and_adjust_bullets [("backend", 9), ("frontend", 2)]
        [⟨some ("unit"), some ["backend", "frontend"]⟩]
    ∧ (⟨"unit", ["backend", "frontend"], 11⟩ : ScoredBullet).alignment_score =
      ((["backend", "frontend"].map
        (fun tag => (([("backend", 9), ("frontend", 2)].lookup tag).getD 0))).sum) :=
  ⟨by decide, alignment_score_is_weight_sum.1 [("backend", 9), ("frontend", 2)]
    [⟨some ("unit"), some ["backend", "frontend"]⟩] _ (by decide)⟩

/-- Claim C2: the Scorer's output is sorted in descending order of
alignment score; the sort is stable (for every score class, the output
units with that score are exactly the input units with that score in input
order); and units entering with scores [5, 9, 5, 3] leave as [9, 5, 5, 3]
with the two score-5 units in their original relative order. -/
theorem scorer_stable_ranking :
    (∀ (weights : List (String × Int)) (bs : List RawBullet),
      (score_and_adjust_bullets weights bs).Pairwise
        (fun a b => b.alignment_score ≤ a.alignment_score))
    ∧ (∀ (weights : List (String × Int)) (bs : List RawBullet) (s : Int),
      (score_and_adjust_bullets weights bs).filter
          (fun x => x.alignment_score == s) =
        (bs.map (mkScoredBullet weights)).filter
          (fun x => x.alignment_score == s))
    ∧ ((score_and_adjust_bullets [("a", 5), ("b", 9), ("c", 3)]
        [⟨some ("u1"), some ["a"]⟩, ⟨some ("u2"), some ["b"]⟩,
         ⟨some ("u3"), some ["a"]⟩, ⟨some ("u4"), some ["c"]⟩]).map
        (fun u => (u.bullet_text, u.alignment_score)) =
      [("u2", 9), ("u1", 5), ("u3", 5), ("u4", 3)]) := by
  refine ⟨?_, ?_, by decide⟩
  · intro weights bs
    exact sortByScoreDesc_sorted (bs.map (mkScoredBullet weights))
  · intro weights bs s
    exact sortByScoreDesc_filter_score s (bs.map (mkScoredBullet weights))

/-- Claim C10: the Scorer's output is a reordering of its input — a
permutation of the input units' scored images, of the same length, with
every unit appearing exactly as often as in the input — and each scored
unit carries its bullet text and tags over verbatim (defaulting to the
empty string and the empty list when absent), with only the alignment
score added. -/
theorem scorer_preserves_units (weights : List (String × Int))
    (bs : List RawBullet) :
    (score_and_adjust_bullets weights bs).Perm (bs.map (mkScoredBullet weights))
    ∧ (score_and_adjust_bullets weights bs).length = bs.length
    ∧ (∀ u : ScoredBullet, (score_and_adjust_bullets weights bs).count u =
        (bs.map (mkScoredBullet weights)).count u)
    ∧ (∀ b : RawBullet, (mkScoredBullet weights b).bullet_text = b.bullet_text.getD ("")
        ∧ (mkScoredBullet weights b).tags = b.tags.getD []) := by
  have hp := sortByScoreDesc_perm (bs.map (mkScoredBullet weights))
  exact ⟨hp, hp.length_eq.trans (List.length_map _ _),
    fun u => hp.count_eq u, fun b => ⟨rfl, rfl⟩⟩

/-- Claim C9: taxonomy closure — when every input unit's tags lie in the
fixed 12-cluster taxonomy, so do the tags of every unit the Scorer
outputs; when every input unit carries 1-3 unique tags, so does every
output unit; and when the weights mapping's keys lie in the taxonomy,
scoring a unit whose tags include an unknown cluster yields the same score
as scoring it with that tag omitted (the unknown tag contributes 0). -/
theorem scorer_taxonomy_closure :
    (∀ (weights : List (String × Int)) (bs : List RawBullet) (u : ScoredBullet),
      (∀ b, b ∈ bs → ∀ t, t ∈ b.tags.getD [] → t ∈ clusters) →
      u ∈ score_and_adjust_bullets weights bs →
      ∀ t, t ∈ u.tags → t ∈ clusters)
    ∧ (∀ (weights : List (String × Int)) (bs : List RawBullet) (u : ScoredBullet),
      (∀ b, b ∈ bs → 1 ≤ (b.tags.getD []).length ∧ (b.tags.getD []).length ≤ 3
        ∧ (b.tags.getD []).Nodup) →
      u ∈ score_and_adjust_bullets weights bs →
      1 ≤ u.tags.length ∧ u.tags.length ≤ 3 ∧ u.tags.Nodup)
    ∧ (∀ w : List (String × Int), (∀ kv, kv ∈ w → kv.1 ∈ clusters) →
      ∀ t : String, t ∉ clusters → ∀ l1 l2 : List String,
        alignmentScore w (l1 ++ t :: l2) = alignmentScore w (l1 ++ l2)) := by
  refine ⟨?_, ?_, ?_⟩
  · intro weights bs u hin hu t ht
    obtain ⟨b, hb, hbu⟩ := mem_score_and_adjust hu
    subst hbu
    exact hin b hb t ht
  · intro weights bs u hin hu
    obtain ⟨b, hb, hbu⟩ := mem_score_and_adjust hu
    subst hbu
    exact hin b hb
  · intro w hw t ht l1 l2
    exact alignmentScore_skip (lookup_eq_none_of_keys hw ht) l1 l2

/-- Witness for `scorer_taxonomy_closure` at a concrete run: one unit
tagged backend+frontend (both taxonomy members), weights over backend
only, and the unknown tag `alien`. -/
theorem scorer_taxonomy_closure_witness :
    (∀ b, b ∈ [(⟨some ("x"), some ["backend", "frontend"]⟩ : RawBullet)] →
      ∀ t, t ∈ b.tags.getD [] → t ∈ clusters)
    ∧ (∀ t, t ∈ (⟨"x", ["backend", "frontend"], 9⟩ : ScoredBullet).tags → t ∈ clusters)
    ∧ ("alien" ∉ clusters)
    ∧ alignmentScore [("backend", 9)] (["backend"] ++ "alien" :: []) =
        alignmentScore [("backend", 9)] (["backend"] ++ []) :=
  ⟨by decide,
    scorer_taxonomy_closure.1 [("backend", 9)]
      [⟨some ("x"), some ["backend", "frontend"]⟩] _ (by decide) (by decide),
    by decide,
    scorer_taxonomy_closure.2.2 [("backend", 9)] (by decide) "alien" (by decide)
      ["backend"] []⟩

theorem containsSub_of_occurs {pat s : List Char} {i : Nat}
    (h : occursAt pat s i) : containsSub pat s = true := by
  unfold containsSub
  cases hfs : findSub pat s with
  | none => exact absurd h (findSub_none pat s hfs i)
  | some j => rfl

theorem containsSub_false_mono {pat pat' s : List Char} (hp : pat <+: pat')
    (hs : containsSub pat s = false) : containsSub pat' s = false := by
  by_contra hne
  have h' : containsSub pat' s = true := by
    cases h : containsSub pat' s
    · exact absurd h hne
    · rfl
  unfold containsSub at h'
  cases hfs : findSub pat' s with
  | none => rw [hfs] at h'; cases h'
  | some j =>
    have hocc := occursAt_of_findSub_some hfs
    have : occursAt pat s j := hp.trans hocc
    rw [containsSub_of_occurs this] at hs
    cases hs

theorem findSub_eq_some_of {pat s : List Char} {i : Nat}
    (hocc : occursAt pat s i) (hmin : ∀ k, k < i → ¬ occursAt pat s k) :
    findSub pat s = some i := by
  cases hfs : findSub pat s with
  | none => exact absurd hocc (findSub_none pat s hfs i)
  | some j =>
    obtain ⟨hj, hjmin⟩ := findSub_some pat s j hfs
    rcases Nat.lt_trichotomy i j with h | h | h
    · exact absurd hocc (hjmin i h)
    · rw [h]
    · exact absurd hj (hmin j h)

theorem pyStrip_id {s : List Char}
    (h1 : ∀ c, s.head? = some c → isPySpace c = false)
    (h2 : ∀ c, s.getLast? = some c → isPySpace c = false) :
    pyStrip s = s := by
  cases s with
  | nil => rfl
  | cons c rest =>
    unfold pyStrip
    have hc : isPySpace c = false := h1 c rfl
    rw [List.dropWhile_cons]
    simp only [hc, Bool.false_eq_true, if_false]
    cases hrev : (c :: rest).reverse with
    | nil => exact absurd hrev (by simp)
    | cons d ds =>
      have hd : (c :: rest).getLast? = some d := by
        rw [← List.head?_reverse, hrev]
        rfl
      have hds : isPySpace d = false := h2 d hd
      rw [List.dropWhile_cons]
      simp only [hds, Bool.false_eq_true, if_false]
      rw [← hrev, List.reverse_reverse]

theorem prefix_take_of_prefix {p l : List Char} {n : Nat} (h : p <+: l)
    (hn : p.length ≤ n) : p <+: l.take n := by
  obtain ⟨t, ht⟩ := h
  subst ht
  rw [List.take_append_eq_append_take, List.take_of_length_le hn]
  exact ⟨t.take (n - p.length), rfl⟩

theorem span_endMarker_suffix {raw : List Char} {i k : Nat}
    (hocc : occursAt endMarker (raw.drop (i + 14)) k) :
    ((raw.drop i).take (14 + k + 14)).drop (14 + k) = endMarker := by
  obtain ⟨t, ht⟩ := hocc
  rw [List.drop_drop] at ht
  rw [List.drop_take, List.drop_drop]
  have hidx : i + (14 + k) = i + 14 + k := by omega
  have hn : 14 + k + 14 - (14 + k) = 14 := by omega
  rw [hidx, hn, ← ht, List.take_append_eq_append_take]
  have hlen : endMarker.length = 14 := by decide
  rw [List.take_of_length_le (by omega), hlen]
  simp

theorem span_length {raw : List Char} {i k : Nat}
    (hocc : occursAt endMarker (raw.drop (i + 14)) k) :
    ((raw.drop i).take (14 + k + 14)).length = 14 + k + 14 := by
  have hlen := hocc.length_le
  rw [List.drop_drop, List.length_drop] at hlen
  have hm : endMarker.length = 14 := by decide
  rw [hm] at hlen
  rw [List.length_take, List.length_drop]
  omega

theorem span_head {raw : List Char} {i : Nat} (k : Nat)
    (hocc : occursAt beginMarker raw i) :
    ∃ t, (raw.drop i).take (14 + k + 14) = '\\' :: t := by
  have hpre : beginMarker <+: (raw.drop i).take (14 + k + 14) :=
    prefix_take_of_prefix hocc
      (by have hb : beginMarker.length = 14 := by decide
          omega)
  obtain ⟨t, ht⟩ := hpre
  exact ⟨("documentclass".data) ++ t, by rw [← ht]; rfl⟩

theorem getLast_of_endMarker_suffix {l : List Char}
    (h : ∃ pre, l = pre ++ endMarker) : l.getLast? = some '\x7d' := by
  obtain ⟨pre, hpre⟩ := h
  subst hpre
  rw [← List.head?_reverse, List.reverse_append]
  rfl

/-- The cleanup applied after marker extraction: strip both fence markers,
then surrounding whitespace. -/
theorem clean_id {doc : List Char}
    (hfence : containsSub fenceBare doc = false)
    (hhead : ∀ c, doc.head? = some c → isPySpace c = false)
    (hlast : ∀ c, doc.getLast? = some c → isPySpace c = false) :
    pyStrip (pyReplace fenceBare [] (pyReplace fenceLatex [] doc)) = doc := by
  have hfl : containsSub fenceLatex doc = false :=
    containsSub_false_mono (by decide) hfence
  rw [pyReplace_id [] hfl, pyReplace_id [] hfence]
  exact pyStrip_id hhead hlast

theorem span_clean_id {raw : List Char} {i k : Nat}
    (hoccB : occursAt beginMarker raw i)
    (hoccE : occursAt endMarker (raw.drop (i + 14)) k)
    (hfence : containsSub fenceBare ((raw.drop i).take (14 + k + 14)) = false) :
    pyStrip (pyReplace fenceBare [] (pyReplace fenceLatex []
      ((raw.drop i).take (14 + k + 14)))) = (raw.drop i).take (14 + k + 14) := by
  apply clean_id hfence
  · intro c hc
    obtain ⟨t, ht⟩ := span_head k hoccB
    rw [ht] at hc
    cases hc
    decide
  · intro c hc
    have hsplit : (raw.drop i).take (14 + k + 14) =
        ((raw.drop i).take (14 + k + 14)).take (14 + k) ++ endMarker := by
      conv_lhs => rw [← List.take_append_drop (14 + k)
        ((raw.drop i).take (14 + k + 14))]
      rw [span_endMarker_suffix hoccE]
    rw [getLast_of_endMarker_suffix ⟨_, hsplit⟩] at hc
    cases hc
    decide

theorem doc_findSub_begin {raw : List Char} {i : Nat} (k : Nat)
    (hocc : occursAt beginMarker raw i) :
    findSub beginMarker ((raw.drop i).take (14 + k + 14)) = some 0 := by
  apply findSub_of_leadsWith
  apply (leadsWith_iff _ _).mpr
  exact prefix_take_of_prefix hocc
    (by have hb : beginMarker.length = 14 := by decide
        omega)

theorem doc_drop14_take {raw : List Char} (i k : Nat) :
    ((raw.drop i).take (14 + k + 14)).drop 14 =
      (raw.drop (i + 14)).take (k + 14) := by
  rw [List.drop_take, List.drop_drop]
  congr 1
  omega

theorem doc_findSub_end {raw : List Char} {i k : Nat}
    (h2 : findSub endMarker (raw.drop (i + 14)) = some k) :
    findSub endMarker (((raw.drop i).take (14 + k + 14)).drop 14) = some k := by
  obtain ⟨hocc, hmin⟩ := findSub_some _ _ _ h2
  apply findSub_eq_some_of
  · show endMarker <+: (((raw.drop i).take (14 + k + 14)).drop 14).drop k
    rw [List.drop_drop, span_endMarker_suffix hocc]
  · intro j hj hoccj
    apply hmin j hj
    have hrw : (((raw.drop i).take (14 + k + 14)).drop 14).drop j =
        ((raw.drop (i + 14)).drop j).take (k + 14 - j) := by
      rw [doc_drop14_take, List.drop_take]
    unfold occursAt at hoccj ⊢
    rw [hrw] at hoccj
    exact hoccj.trans (List.take_prefix _ _)

theorem doc_extract_self {raw : List Char} {i k : Nat}
    (h1 : findSub beginMarker raw = some i)
    (h2 : findSub endMarker (raw.drop (i + 14)) = some k)
    (hfence : containsSub fenceBare ((raw.drop i).take (14 + k + 14)) = false) :
    extract_latex_document ((raw.drop i).take (14 + k + 14)) =
      (raw.drop i).take (14 + k + 14) := by
  have hoccB := occursAt_of_findSub_some h1
  obtain ⟨hoccE, _⟩ := findSub_some _ _ _ h2
  unfold extract_latex_document
  simp only [doc_findSub_begin k hoccB, Nat.zero_add, doc_findSub_end h2,
    List.drop_zero]
  have htk : ((raw.drop i).take (14 + k + 14)).take (14 + k + 14) =
      (raw.drop i).take (14 + k + 14) :=
    List.take_of_length_le (by rw [span_length hoccE])
  rw [htk]
  exact span_clean_id hoccB hoccE hfence

/-- Claim C7 counterexample: on a reply containing two end-markers, the
code's LAZY `.*?` match stops at the FIRST end-marker, while the claim's
greedy matching (followed faithfully by
`extract_latex_document_specGreedy`) would extend to the LAST one; the two
results differ. -/
theorem rewrite_extraction_not_greedy_cex :
    extract_latex_document
        (("\\documentclass\x7barticle\x7d A \\end\x7bdocument\x7d B \\end\x7bdocument\x7d").data)
      = ("\\documentclass\x7barticle\x7d A \\end\x7bdocument\x7d").data
    ∧ extract_latex_document_specGreedy
        (("\\documentclass\x7barticle\x7d A \\end\x7bdocument\x7d B \\end\x7bdocument\x7d").data)
      = ("\\documentclass\x7barticle\x7d A \\end\x7bdocument\x7d B \\end\x7bdocument\x7d").data
    ∧ ("\\documentclass\x7barticle\x7d A \\end\x7bdocument\x7d").data
      ≠ ("\\documentclass\x7barticle\x7d A \\end\x7bdocument\x7d B \\end\x7bdocument\x7d").data :=
  ⟨rfl, rfl, by decide⟩

/-- Claim C7 (amended: the match spans MINIMALLY — from the first
begin-marker to the first end-marker after it — not greedily): when both
markers are found, extraction keeps exactly the span from the first
begin-marker occurrence to the first following end-marker occurrence and
then strips fences and whitespace from it; when the begin-marker is
absent, or no end-marker follows it, the raw reply with fences stripped is
passed through, and the run is not failed. -/
theorem rewrite_extraction_behavior :
    (∀ (raw : List Char) (i k : Nat),
      findSub beginMarker raw = some i →
      findSub endMarker (raw.drop (i + 14)) = some k →
      extract_latex_document raw =
        pyStrip (pyReplace fenceBare [] (pyReplace fenceLatex []
          ((raw.drop i).take (14 + k + 14))))
      ∧ occursAt beginMarker raw i
      ∧ (∀ j, j < i → ¬ occursAt beginMarker raw j)
      ∧ occursAt endMarker (raw.drop (i + 14)) k
      ∧ (∀ j, j < k → ¬ occursAt endMarker (raw.drop (i + 14)) j))
    ∧ (∀ raw : List Char, findSub beginMarker raw = none →
      extract_latex_document raw =
        pyStrip (pyReplace fenceBare [] (pyReplace fenceLatex [] raw)))
    ∧ (∀ (raw : List Char) (i : Nat), findSub beginMarker raw = some i →
      findSub endMarker (raw.drop (i + 14)) = none →
      extract_latex_document raw =
        pyStrip (pyReplace fenceBare [] (pyReplace fenceLatex [] raw))) := by
  refine ⟨?_, ?_, ?_⟩
  · intro raw i k h1 h2
    obtain ⟨hb, hbmin⟩ := findSub_some _ _ _ h1
    obtain ⟨he, hemin⟩ := findSub_some _ _ _ h2
    refine ⟨?_, hb, hbmin, he, hemin⟩
    unfold extract_latex_document
    simp only [h1, h2]
  · intro raw h
    unfold extract_latex_document
    simp only [h]
  · intro raw i h1 h2
    unfold extract_latex_document
    simp only [h1, h2]

/-- Witness for `rewrite_extraction_behavior` at a concrete marker-free
reply. -/
theorem rewrite_extraction_behavior_witness :
    findSub beginMarker (("No markers here").data) = none
    ∧ extract_latex_document (("No markers here").data) =
        pyStrip (pyReplace fenceBare [] (pyReplace fenceLatex []
          (("No markers here").data))) :=
  ⟨rfl, rewrite_extraction_behavior.2.1 (("No markers here").data) rfl⟩

/-- Claim C8: extraction idempotence — when the reply contains exactly one
begin-marker occurrence and exactly one end-marker occurrence after it
(one delimited document), and the delimited span itself contains no fence
marker (the fences only wrap it), extraction yields exactly the delimited
span with the surrounding commentary and fences discarded, and applying
the extraction step to its own output returns that output unchanged. -/
theorem rewrite_extraction_idempotent :
    ∀ (raw : List Char) (i k : Nat),
      findSub beginMarker raw = some i →
      findSubLast beginMarker raw = some i →
      findSub endMarker (raw.drop (i + 14)) = some k →
      findSubLast endMarker (raw.drop (i + 14)) = some k →
      containsSub fenceBare ((raw.drop i).take (14 + k + 14)) = false →
      extract_latex_document raw = (raw.drop i).take (14 + k + 14)
      ∧ extract_latex_document ((raw.drop i).take (14 + k + 14)) =
          (raw.drop i).take (14 + k + 14) := by
  intro raw i k h1 _ h2 _ hfence
  have hoccB := occursAt_of_findSub_some h1
  obtain ⟨hoccE, _⟩ := findSub_some _ _ _ h2
  constructor
  · unfold extract_latex_document
    simp only [h1, h2]
    exact span_clean_id hoccB hoccE hfence
  · exact doc_extract_self h1 h2 hfence

/-- Witness for `rewrite_extraction_idempotent` at a concrete reply with
commentary and a fence wrapper around exactly one delimited document. -/
theorem rewrite_extraction_idempotent_witness :
    findSub beginMarker
        (("Sure!\n```latex\n\\documentclass\x7barticle\x7dHi\\end\x7bdocument\x7d\n```\nBye").data) = some 15
    ∧ findSubLast beginMarker
        (("Sure!\n```latex\n\\documentclass\x7barticle\x7dHi\\end\x7bdocument\x7d\n```\nBye").data) = some 15
    ∧ findSub endMarker
        ((("Sure!\n```latex\n\\documentclass\x7barticle\x7dHi\\end\x7bdocument\x7d\n```\nBye").data).drop (15 + 14)) = some 11
    ∧ findSubLast endMarker
        ((("Sure!\n```latex\n\\documentclass\x7barticle\x7dHi\\end\x7bdocument\x7d\n```\nBye").data).drop (15 + 14)) = some 11
    ∧ containsSub fenceBare
        (((("Sure!\n```latex\n\\documentclass\x7barticle\x7dHi\\end\x7bdocument\x7d\n```\nBye").data).drop 15).take (14 + 11 + 14)) = false
    ∧ (extract_latex_document
          (("Sure!\n```latex\n\\documentclass\x7barticle\x7dHi\\end\x7bdocument\x7d\n```\nBye").data) =
        ((("Sure!\n```latex\n\\documentclass\x7barticle\x7dHi\\end\x7bdocument\x7d\n```\nBye").data).drop 15).take (14 + 11 + 14)
      ∧ extract_latex_document
          (((("Sure!\n```latex\n\\documentclass\x7barticle\x7dHi\\end\x7bdocument\x7d\n```\nBye").data).drop 15).take (14 + 11 + 14)) =
        ((("Sure!\n```latex\n\\documentclass\x7barticle\x7dHi\\end\x7bdocument\x7d\n```\nBye").data).drop 15).take (14 + 11 + 14)) :=
  ⟨rfl, rfl, rfl, rfl, rfl,
    rewrite_extraction_idempotent
      (("Sure!\n```latex\n\\documentclass\x7barticle\x7dHi\\end\x7bdocument\x7d\n```\nBye").data)
      15 11 rfl rfl rfl rfl rfl⟩
